import Mathlib

/-!
# Verification of the layered-grid core of `layer_axiom_game.py`

Shallow embedding of the layered-grid data model and operations of
`src/layer_axiom_game.py` (and, for the square projection strategy, of
`src/old_versions/axiom_square_beta.py`).

Conventions of the embedding:
* Python's global mutable state (`data`, `current_layer`, `current_axiom`,
  `cursor_x`, `cursor_y`) becomes the explicit state record `GState`,
  threaded through every operation.
* The per-pair dictionary `data` becomes the function
  `Store = Nat → AxiomTag → Option Grid`; dictionary insertion is `storeSet`.
* A grid's two parallel dense matrices (`grid`, `read_only`) become total
  functions `Int → Int → String` / `Int → Int → Bool` indexed by the raw
  matrix indices `gy gx` used in the Python code; entries outside the
  `[0, 2·layer]²` square are the allocation defaults, exactly as a freshly
  allocated matrix row would hold them.
* The unbounded `while True` loop of `jump_across` becomes a fuel-indexed
  recursion; the fuel `2·current_layer + 1` is proved sufficient
  (claim C10), so the fueled function agrees with the unbounded loop.
-/

/-- `DEFAULT_CHAR = "◦"` of `layer_axiom_game.py`. -/
def DEFAULT_CHAR : String := "◦"

/-- `CENTER_CHAR = "O"` of `layer_axiom_game.py`. -/
def CENTER_CHAR : String := "O"

/-- The nine fixed plane tags `'A'..'J'` of `AXIOM_CONFIGS`. -/
inductive AxiomTag where
  | A | B | C | D | E | F | H | I | J
deriving DecidableEq

/-- The list `axioms = ['A','B','C','D','E','F','H','I','J']` used by
`prefill_layers`. -/
def axList : List AxiomTag :=
  [AxiomTag.A, AxiomTag.B, AxiomTag.C, AxiomTag.D, AxiomTag.E,
   AxiomTag.F, AxiomTag.H, AxiomTag.I, AxiomTag.J]

/-- One cached layer grid: the symbol matrix `grid` and the parallel
read-only matrix `read_only`, indexed as `cell gy gx` / `ro gy gx`
like `grid[gy][gx]` / `read_only[gy][gx]` in the Python source. -/
structure Grid where
  cell : Int → Int → String
  ro : Int → Int → Bool

/-- `layer_dimension(layer) = 2 * layer + 1`. -/
def layer_dimension (layer : Nat) : Nat := 2 * layer + 1

/-- The grid built by `create_layer_axiom(0, axiom)`: a 1×1 default matrix
with `grid[0][0] = CENTER_CHAR` and `read_only[0][0] = False`. -/
def grid0 : Grid where
  cell := fun gy gx => if gy = 0 ∧ gx = 0 then CENTER_CHAR else DEFAULT_CHAR
  ro := fun _ _ => false

/-- The grid built by `create_layer_axiom(layer, axiom)` for `layer > 0`,
given the previous layer's grid `prev`: a `(2·layer+1)²` default
unfrozen matrix whose centered sub-square (offset 1) holds a copy of
`prev` with `CENTER_CHAR` translated to `' '`, every copied cell marked
read-only. -/
def buildGrid (prev : Grid) (layer : Nat) : Grid where
  cell := fun gy gx =>
    if 1 ≤ gy ∧ gy ≤ 2 * (layer : Int) + 1 - 2 ∧ 1 ≤ gx ∧ gx ≤ 2 * (layer : Int) + 1 - 2 then
      (if prev.cell (gy - 1) (gx - 1) = CENTER_CHAR then " " else prev.cell (gy - 1) (gx - 1))
    else DEFAULT_CHAR
  ro := fun gy gx =>
    decide (1 ≤ gy ∧ gy ≤ 2 * (layer : Int) + 1 - 2 ∧ 1 ≤ gx ∧ gx ≤ 2 * (layer : Int) + 1 - 2)

/-- The global dictionary `data`, keyed by `(layer, axiom)`. -/
def Store : Type := Nat → AxiomTag → Option Grid

/-- The empty dictionary `data = {}`. -/
def emptyStore : Store := fun _ _ => none

/-- Dictionary assignment `data[(layer, axiom)] = g`. -/
def storeSet (s : Store) (n : Nat) (a : AxiomTag) (g : Grid) : Store :=
  fun m b => if m = n ∧ b = a then some g else s m b

/-- Dictionary lookup `data[(layer, axiom)]`; total with a dummy default
(every use in the development is guarded by presence of the key). -/
def getGrid (s : Store) (n : Nat) (a : AxiomTag) : Grid :=
  (s n a).getD grid0

/-- `ensure_layer_axiom(layer, axiom)` together with the
`create_layer_axiom(layer, axiom)` it calls when the key is absent:
if `(layer, axiom)` is cached, do nothing; otherwise recursively ensure
`layer - 1` (for `layer > 0`) and store the freshly built grid. -/
def ensure_layer_grid : Nat → AxiomTag → Store → Store
  | 0, a, s =>
    if (s 0 a).isSome then s else storeSet s 0 a grid0
  | n + 1, a, s =>
    if (s (n + 1) a).isSome then s
    else
      let s' := ensure_layer_grid n a s
      storeSet s' (n + 1) a (buildGrid (getGrid s' n a) (n + 1))

/-- The process-wide mutable globals of `layer_axiom_game.py`:
`data`, `current_layer`, `current_axiom`, `cursor_x`, `cursor_y`. -/
structure GState where
  data : Store
  current_layer : Nat
  current_ax : AxiomTag
  cursor_x : Int
  cursor_y : Int

/-- `is_within_bounds(x, y)`. -/
def is_within_bounds (st : GState) (x y : Int) : Bool :=
  decide (-(st.current_layer : Int) ≤ x ∧ x ≤ (st.current_layer : Int) ∧
    -(st.current_layer : Int) ≤ y ∧ y ≤ (st.current_layer : Int))

/-- `is_read_only(x, y)`: reads the read-only flag of the current grid at
matrix indices `gy = y + center`, `gx = x + center`. -/
def is_read_only (st : GState) (x y : Int) : Bool :=
  (getGrid st.data st.current_layer st.current_ax).ro
    (y + (st.current_layer : Int)) (x + (st.current_layer : Int))

/-- The `while True` walk inside `jump_across`, with explicit fuel: from
`(x, y)` step repeatedly by `(dx, dy)`; stop with `none` on leaving the
bounds, with `some` on the first unfrozen in-bounds cell. -/
def jumpAux (st : GState) (dx dy : Int) : Int → Int → Nat → Option (Int × Int)
  | _, _, 0 => none
  | x, y, fuel + 1 =>
    if ! is_within_bounds st (x + dx) (y + dy) then none
    else if ! is_read_only st (x + dx) (y + dy) then some (x + dx, y + dy)
    else jumpAux st dx dy (x + dx) (y + dy) fuel

/-- `jump_across(dx, dy)`: the walk started at the cursor.  The fuel
`2·current_layer + 1` is an upper bound on the number of iterations of
the Python loop for a unit direction and an in-bounds cursor (claim C10),
so this equals the unbounded loop. -/
def jump_across (st : GState) (dx dy : Int) : Option (Int × Int) :=
  jumpAux st dx dy st.cursor_x st.cursor_y (2 * st.current_layer + 1)

/-- `move_cursor(dx, dy)`: commit the cursor on success, otherwise leave
the state untouched. -/
def move_cursor (st : GState) (dx dy : Int) : GState :=
  match jump_across st dx dy with
  | some (nx, ny) => { st with cursor_x := nx, cursor_y := ny }
  | none => st

/-- `insert_char(ch)`: write `ch` at the cursor's matrix cell unless that
cell is read-only. -/
def insert_char (st : GState) (ch : String) : GState :=
  let g := getGrid st.data st.current_layer st.current_ax
  let gx := st.cursor_x + (st.current_layer : Int)
  let gy := st.cursor_y + (st.current_layer : Int)
  if g.ro gy gx then st
  else
    { st with
      data := storeSet st.data st.current_layer st.current_ax
        { g with cell := fun y x => if y = gy ∧ x = gx then ch else g.cell y x } }

/-- `go_to_layer_axiom(layer, axiom)`: set the context, ensure the grid,
and unconditionally reset the cursor to `(-layer, -layer)`. -/
def go_to_layer_grid (st : GState) (layer : Nat) (a : AxiomTag) : GState :=
  { data := ensure_layer_grid layer a st.data
    current_layer := layer
    current_ax := a
    cursor_x := -(layer : Int)
    cursor_y := -(layer : Int) }

/-- Chebyshev distance `max(abs(x), abs(y))` of an offset pair. -/
def chebNat (x y : Int) : Nat := max x.natAbs y.natAbs

/-- The offset values `range(-N, N+1)` swept by the ring loops. -/
def offsets (N : Nat) : List Int :=
  (List.range (2 * N + 1)).map (fun (i : Nat) => (i : Int) - (N : Int))

/-- The ring enumeration of `get_outer_ring_cells` before the symbol
filter: offsets `(x, y)` with `max(abs(x), abs(y)) == N`, in the source's
row-major loop order (outer `y`, inner `x`). -/
def ring_offsets (N : Nat) : List (Int × Int) :=
  (offsets N).flatMap (fun y =>
    (offsets N).flatMap (fun x =>
      if chebNat x y = N then [(x, y)] else []))

/-- `get_outer_ring_cells(layer, axiom)`: for layer 0 the single origin
cell with whatever it currently holds; otherwise the ring cells whose
symbol is not `' '`, `''` or `DEFAULT_CHAR`.  The function reads only the
symbol matrix (never `read_only`), exactly like the source. -/
def get_outer_ring_cells (s : Store) (layer : Nat) (a : AxiomTag) :
    List (Int × Int × String) :=
  let g := getGrid s layer a
  if layer = 0 then [(0, 0, g.cell 0 0)]
  else
    (ring_offsets layer).filterMap (fun p =>
      if g.cell (p.2 + (layer : Int)) (p.1 + (layer : Int)) = " " ∨
          g.cell (p.2 + (layer : Int)) (p.1 + (layer : Int)) = "" ∨
          g.cell (p.2 + (layer : Int)) (p.1 + (layer : Int)) = DEFAULT_CHAR then none
      else some (p.1, p.2, g.cell (p.2 + (layer : Int)) (p.1 + (layer : Int))))

/-- One cell assignment `grid[gy][gx] = ch` on a grid value. -/
def setCell (g : Grid) (gx gy : Int) (ch : String) : Grid :=
  { g with cell := fun y x => if y = gy ∧ x = gx then ch else g.cell y x }

/-- The unfrozen ring coordinates collected by `prefill_layers`: matrix
index pairs `(gx, gy)` of cells at Chebyshev distance `N` whose
read-only flag is false, in loop order. -/
def prefill_ring_coords (g : Grid) (N : Nat) : List (Int × Int) :=
  (ring_offsets N).filterMap (fun p =>
    if g.ro (p.2 + (N : Int)) (p.1 + (N : Int)) then none
    else some (p.1 + (N : Int), p.2 + (N : Int)))

/-- The `full`-mode write loop of `prefill_layers`:
`for (gx,gy) in ring_coords: if base_char not in [DEFAULT_CHAR]: grid[gy][gx] = base_char`. -/
def prefill_full_write (g : Grid) (coords : List (Int × Int)) (c : String) : Grid :=
  coords.foldl (fun acc p => if c = DEFAULT_CHAR then acc else setCell acc p.1 p.2 c) g

/-- One `(layer, axiom)` iteration of `prefill_layers` in `full` mode:
ensure the grid, collect the unfrozen ring coordinates, skip when there
are none, pick `chars_list[layer-1]` when `layer <= len(chars_list)`
(else `None`), and run the full-mode write loop. -/
def prefill_one (fills : AxiomTag → List String) (layer : Nat) (a : AxiomTag)
    (s : Store) : Store :=
  let s' := ensure_layer_grid layer a s
  let g := getGrid s' layer a
  let coords := prefill_ring_coords g layer
  if coords.length = 0 then s'
  else
    match (fills a).get? (layer - 1) with
    | some c => storeSet s' layer a (prefill_full_write g coords c)
    | none => s'

/-- `max_layers = max(len(fillA), ..., len(fillJ))` in `prefill_layers`. -/
def maxFills (fills : AxiomTag → List String) : Nat :=
  (axList.map (fun a => (fills a).length)).foldl max 0

/-- `prefill_layers(mode='full', fillA, ..., fillJ)`: for each layer in
`1..max_layers` and each of the nine plane tags in order, run one
full-mode prefill iteration. -/
def prefill_layers (fills : AxiomTag → List String) (s : Store) : Store :=
  (List.range' 1 (maxFills fills)).foldl
    (fun s2 layer => axList.foldl (fun s3 b => prefill_one fills layer b s3) s2) s

/-- The per-ring emission step of `render_3d` in `layer_axiom_game.py`
(the circular strategy): for the sorted ring cells, append one projected
point `coord i` and the cell's symbol per index, then — when there is
more than one point — close the polyline by appending the first point
again.  The symbol list is NOT closed.  The projected point value
`calculate_coordinates(axiom, layer, 2*pi*i/K)` is abstracted as the
function `coord`, since its value is floating-point trigonometry; only
the sequence structure matters here. -/
def render_ring_circular {α : Type} [Inhabited α] (coord : Nat → α)
    (cells : List (Int × Int × String)) : List α × List String :=
  let x_vals := (List.range cells.length).map coord
  let text_vals := cells.map (fun c => c.2.2)
  if 1 < x_vals.length then (x_vals ++ [x_vals.headI], text_vals)
  else (x_vals, text_vals)

/-- The per-ring emission step of `render_3d` in
`old_versions/axiom_square_beta.py` (the square strategy): identical to
the circular one except that the closing duplicate is appended to the
symbol list as well (`text_vals.append(text_vals[0])`).  The projected
point `calculate_square_coordinates(axiom, layer, i/K)` is abstracted as
`coord`. -/
def render_ring_square {α : Type} [Inhabited α] (coord : Nat → α)
    (cells : List (Int × Int × String)) : List α × List String :=
  let x_vals := (List.range cells.length).map coord
  let text_vals := cells.map (fun c => c.2.2)
  if 1 < x_vals.length then (x_vals ++ [x_vals.headI], text_vals ++ [text_vals.headI])
  else (x_vals, text_vals)

/-- The `if not ring_cells: continue` guard of both `render_3d`
versions: an empty ring emits no geometry at all. -/
def emit_ring {α : Type}
    (f : (Nat → α) → List (Int × Int × String) → List α × List String)
    (coord : Nat → α) (cells : List (Int × Int × String)) :
    Option (List α × List String) :=
  if cells.isEmpty then none else some (f coord cells)

/-- The four unit directions `move_cursor` is invoked with
(arrow keys in `run`). -/
def UnitDir (dx dy : Int) : Prop :=
  (dx = 1 ∧ dy = 0) ∨ (dx = -1 ∧ dy = 0) ∨ (dx = 0 ∧ dy = 1) ∨ (dx = 0 ∧ dy = -1)

/-- The states reachable by the interactive loop `run`: the initial
`go_to_layer_axiom(0, 'A')` (optionally preceded by a full-mode
prefill from the empty store, as with `--prefill`), closed under
context switches, unit-direction cursor moves, character writes, and
full-mode prefill. -/
inductive Reachable : GState → Prop
  | init :
      Reachable (go_to_layer_grid
        ⟨emptyStore, 0, AxiomTag.A, 0, 0⟩ 0 AxiomTag.A)
  | initPrefill (fills : AxiomTag → List String) :
      Reachable (go_to_layer_grid
        ⟨prefill_layers fills emptyStore, 0, AxiomTag.A, 0, 0⟩ 0 AxiomTag.A)
  | step_goto {st : GState} (layer : Nat) (a : AxiomTag) :
      Reachable st → Reachable (go_to_layer_grid st layer a)
  | step_move {st : GState} {dx dy : Int} :
      Reachable st → UnitDir dx dy → Reachable (move_cursor st dx dy)
  | step_write {st : GState} (ch : String) :
      Reachable st → Reachable (insert_char st ch)
  | step_prefill {st : GState} (fills : AxiomTag → List String) :
      Reachable st → Reachable { st with data := prefill_layers fills st.data }

/-- The read-only pattern every stored grid of layer `N` satisfies:
frozen exactly on the copied interior (matrix indices `1..2N-1` in both
coordinates), i.e. at Chebyshev offset distance `< N`. -/
def roPattern (N : Nat) : Int → Int → Bool :=
  fun gy gx =>
    decide (1 ≤ gy ∧ gy ≤ 2 * (N : Int) - 1 ∧ 1 ≤ gx ∧ gx ≤ 2 * (N : Int) - 1)

/-- Every grid cached in the store has the read-only pattern of its layer. -/
def StoreOK (s : Store) : Prop :=
  ∀ n a g, s n a = some g → g.ro = roPattern n

/-- The state invariant: the current key is cached, the cursor is in
bounds, the cursor's cell is unfrozen, and all cached grids have the
layer read-only pattern. -/
def InvP (st : GState) : Prop :=
  (st.data st.current_layer st.current_ax).isSome = true ∧
  is_within_bounds st st.cursor_x st.cursor_y = true ∧
  is_read_only st st.cursor_x st.cursor_y = false ∧
  StoreOK st.data

/-- The state in which the interactive loop `run` starts:
`go_to_layer_axiom(0, 'A')` from empty globals. -/
def initState : GState :=
  go_to_layer_grid ⟨emptyStore, 0, AxiomTag.A, 0, 0⟩ 0 AxiomTag.A

/-- An artificial state whose cursor rests on a frozen cell (the copied
center of the layer-1 grid); used to exercise the silently-ignored
branch of `insert_char`. -/
def stFrozen : GState :=
  { data := ensure_layer_grid 1 AxiomTag.A emptyStore
    current_layer := 1
    current_ax := AxiomTag.A
    cursor_x := 0
    cursor_y := 0 }

/-- The reachable state built by: start, switch to layer 1 (building
grids 0 and 1 of plane A), switch back to layer 0, and write `"Z"` at
the unfrozen origin of the layer-0 grid. -/
def stBad : GState :=
  insert_char
    (go_to_layer_grid (go_to_layer_grid initState 1 AxiomTag.A) 0 AxiomTag.A) "Z"

/-- The full-mode prefill postcondition for one grid: if a non-default
symbol is configured for this depth, every unfrozen ring cell holds it;
if no symbol is configured for this depth, the ring cells hold the
default placeholder. -/
def RingPrefilled (fills : AxiomTag → List String) (layer : Nat)
    (a : AxiomTag) (g : Grid) : Prop :=
  (∀ c : String, (fills a).get? (layer - 1) = some c → c ≠ DEFAULT_CHAR →
    ∀ x y : Int, chebNat x y = layer →
      g.ro (y + (layer : Int)) (x + (layer : Int)) = false →
      g.cell (y + (layer : Int)) (x + (layer : Int)) = c) ∧
  ((fills a).get? (layer - 1) = none →
    ∀ x y : Int, chebNat x y = layer →
      g.cell (y + (layer : Int)) (x + (layer : Int)) = DEFAULT_CHAR)

/-- The symbol configuration of the spec scenario: list `["X"]` for
every plane. -/
def fillsX : AxiomTag → List String := fun _ => ["X"]

lemma storeSet_self (s : Store) (n : Nat) (a : AxiomTag) (g : Grid) :
    storeSet s n a g n a = some g := by
  simp [storeSet]

lemma storeSet_other (s : Store) (n : Nat) (a : AxiomTag) (g : Grid)
    (m : Nat) (b : AxiomTag) (h : ¬(m = n ∧ b = a)) :
    storeSet s n a g m b = s m b := by
  simp [storeSet, h]

lemma ensure_isSome (n : Nat) (a : AxiomTag) (s : Store) :
    (ensure_layer_grid n a s n a).isSome = true := by
  cases n with
  | zero =>
    rw [ensure_layer_grid]
    split
    · assumption
    · simp [storeSet_self]
  | succ m =>
    rw [ensure_layer_grid]
    split
    · assumption
    · simp [storeSet_self]

lemma ensure_keep (n : Nat) (a : AxiomTag) (s : Store) (m : Nat) (b : AxiomTag)
    (h : (s m b).isSome = true) :
    ensure_layer_grid n a s m b = s m b := by
  induction n with
  | zero =>
    rw [ensure_layer_grid]
    split
    · rfl
    · rename_i hn
      rw [storeSet_other]
      rintro ⟨rfl, rfl⟩
      exact hn h
  | succ k ih =>
    rw [ensure_layer_grid]
    split
    · rfl
    · rename_i hn
      rw [storeSet_other, ih]
      rintro ⟨rfl, rfl⟩
      exact hn h

lemma ensure_frame (n : Nat) (a : AxiomTag) (s : Store) (m : Nat) (b : AxiomTag)
    (h : b ≠ a ∨ n < m) :
    ensure_layer_grid n a s m b = s m b := by
  induction n with
  | zero =>
    rw [ensure_layer_grid]
    split
    · rfl
    · rw [storeSet_other]
      rintro ⟨rfl, rfl⟩
      rcases h with h | h
      · exact h rfl
      · omega
  | succ k ih =>
    rw [ensure_layer_grid]
    split
    · rfl
    · rw [storeSet_other]
      · apply ih
        rcases h with h | h
        · exact Or.inl h
        · exact Or.inr (by omega)
      · rintro ⟨rfl, rfl⟩
        rcases h with h | h
        · exact h rfl
        · omega

lemma grid0_ro : grid0.ro = roPattern 0 := by
  funext gy gx
  simp only [grid0, roPattern]
  rw [eq_comm, decide_eq_false_iff_not]
  push_cast
  omega

lemma buildGrid_ro (prev : Grid) (N : Nat) :
    (buildGrid prev N).ro = roPattern N := by
  funext gy gx
  simp only [buildGrid, roPattern]
  rw [decide_eq_decide]
  constructor
  · rintro ⟨h1, h2, h3, h4⟩
    exact ⟨h1, by omega, h3, by omega⟩
  · rintro ⟨h1, h2, h3, h4⟩
    exact ⟨h1, by omega, h3, by omega⟩

lemma ensure_ok (n : Nat) (a : AxiomTag) (s : Store) (hs : StoreOK s) :
    StoreOK (ensure_layer_grid n a s) := by
  induction n with
  | zero =>
    rw [ensure_layer_grid]
    split
    · exact hs
    · intro m b g hg
      by_cases hk : m = 0 ∧ b = a
      · obtain ⟨rfl, rfl⟩ := hk
        rw [storeSet_self] at hg
        cases hg
        exact grid0_ro
      · rw [storeSet_other _ _ _ _ _ _ hk] at hg
        exact hs _ _ _ hg
  | succ k ih =>
    rw [ensure_layer_grid]
    split
    · exact hs
    · intro m b g hg
      by_cases hk : m = k + 1 ∧ b = a
      · obtain ⟨rfl, rfl⟩ := hk
        rw [storeSet_self] at hg
        cases hg
        exact buildGrid_ro _ _
      · rw [storeSet_other _ _ _ _ _ _ hk] at hg
        exact ih _ _ _ hg

lemma roPattern_eval (N : Nat) (gy gx : Int) :
    roPattern N gy gx = true ↔
      (1 ≤ gy ∧ gy ≤ 2 * (N : Int) - 1 ∧ 1 ≤ gx ∧ gx ≤ 2 * (N : Int) - 1) := by
  simp [roPattern]

lemma chebNat_le_iff (x y : Int) (k : Nat) :
    chebNat x y ≤ k ↔ (-(k : Int) ≤ x ∧ x ≤ k ∧ -(k : Int) ≤ y ∧ y ≤ k) := by
  simp only [chebNat]
  omega

lemma chebNat_eq_iff (x y : Int) (k : Nat) :
    chebNat x y = k ↔
      ((x.natAbs = k ∧ y.natAbs ≤ k) ∨ (y.natAbs = k ∧ x.natAbs ≤ k)) := by
  simp only [chebNat]
  omega

lemma buildGrid_inner (prev : Grid) (N : Nat) (hN : 0 < N) (x y : Int)
    (h : chebNat x y ≤ N - 1) :
    (buildGrid prev N).cell (y + (N : Int)) (x + (N : Int)) =
      (if prev.cell (y + (N : Int) - 1) (x + (N : Int) - 1) = CENTER_CHAR then " "
       else prev.cell (y + (N : Int) - 1) (x + (N : Int) - 1)) ∧
    (buildGrid prev N).ro (y + (N : Int)) (x + (N : Int)) = true := by
  rw [chebNat_le_iff] at h
  have hcond : 1 ≤ y + (N : Int) ∧ y + (N : Int) ≤ 2 * (N : Int) + 1 - 2 ∧
      1 ≤ x + (N : Int) ∧ x + (N : Int) ≤ 2 * (N : Int) + 1 - 2 := by omega
  constructor
  · simp only [buildGrid]
    rw [if_pos hcond]
  · simp only [buildGrid]
    exact decide_eq_true hcond

lemma buildGrid_band (prev : Grid) (N : Nat) (x y : Int)
    (h : chebNat x y = N) :
    (buildGrid prev N).cell (y + (N : Int)) (x + (N : Int)) = DEFAULT_CHAR ∧
    (buildGrid prev N).ro (y + (N : Int)) (x + (N : Int)) = false := by
  rw [chebNat_eq_iff] at h
  have hcond : ¬(1 ≤ y + (N : Int) ∧ y + (N : Int) ≤ 2 * (N : Int) + 1 - 2 ∧
      1 ≤ x + (N : Int) ∧ x + (N : Int) ≤ 2 * (N : Int) + 1 - 2) := by omega
  constructor
  · simp only [buildGrid]
    rw [if_neg hcond]
  · simp only [buildGrid]
    exact decide_eq_false hcond

/-- Unfolding `ensure_layer_axiom` at an absent key of positive layer:
it first ensures the previous layer, then stores the freshly built grid. -/
lemma ensure_absent_succ (n : Nat) (a : AxiomTag) (s : Store)
    (h : s (n + 1) a = none) :
    ensure_layer_grid (n + 1) a s =
      storeSet (ensure_layer_grid n a s) (n + 1) a
        (buildGrid (getGrid (ensure_layer_grid n a s) n a) (n + 1)) := by
  rw [ensure_layer_grid]
  rw [if_neg]
  simp [h]

lemma ensure_absent_zero (a : AxiomTag) (s : Store) (h : s 0 a = none) :
    ensure_layer_grid 0 a s = storeSet s 0 a grid0 := by
  rw [ensure_layer_grid]
  rw [if_neg]
  simp [h]

/-- Characterization of a successful walk: the committed cell is in
bounds and unfrozen, lies `k ≥ 1` steps along the direction, and every
strictly intermediate cell was in bounds and frozen (it was skipped). -/
lemma jumpAux_some (st : GState) (dx dy : Int) :
    ∀ (fuel : Nat) (x y nx ny : Int),
      jumpAux st dx dy x y fuel = some (nx, ny) →
      is_within_bounds st nx ny = true ∧ is_read_only st nx ny = false ∧
      ∃ k : Nat, 1 ≤ k ∧ nx = x + (k : Int) * dx ∧ ny = y + (k : Int) * dy ∧
        ∀ j : Nat, 1 ≤ j → j < k →
          is_within_bounds st (x + (j : Int) * dx) (y + (j : Int) * dy) = true ∧
          is_read_only st (x + (j : Int) * dx) (y + (j : Int) * dy) = true := by
  intro fuel
  induction fuel with
  | zero => intro x y nx ny h; simp [jumpAux] at h
  | succ f ih =>
    intro x y nx ny h
    rw [jumpAux] at h
    by_cases hb : is_within_bounds st (x + dx) (y + dy) = true
    · rw [hb] at h
      simp only [Bool.not_true, Bool.false_eq_true, if_false] at h
      by_cases hr : is_read_only st (x + dx) (y + dy) = true
      · rw [hr] at h
        simp only [Bool.not_true, Bool.false_eq_true, if_false] at h
        obtain ⟨hbn, hrn, k, hk1, hkx, hky, hmid⟩ := ih (x + dx) (y + dy) nx ny h
        refine ⟨hbn, hrn, k + 1, by omega, ?_, ?_, ?_⟩
        · rw [hkx]; push_cast; ring
        · rw [hky]; push_cast; ring
        · intro j hj1 hjk
          by_cases hj : j = 1
          · subst hj
            simpa using ⟨hb, hr⟩
          · have h2 : 1 ≤ j - 1 := by omega
            have h3 : j - 1 < k := by omega
            obtain ⟨hA, hB⟩ := hmid (j - 1) h2 h3
            have hx : x + dx + ((j - 1 : Nat) : Int) * dx = x + (j : Int) * dx := by
              have : ((j - 1 : Nat) : Int) = (j : Int) - 1 := by omega
              rw [this]; ring
            have hy : y + dy + ((j - 1 : Nat) : Int) * dy = y + (j : Int) * dy := by
              have : ((j - 1 : Nat) : Int) = (j : Int) - 1 := by omega
              rw [this]; ring
            rw [hx, hy] at hA hB
            exact ⟨hA, hB⟩
      · have hr' : is_read_only st (x + dx) (y + dy) = false :=
          Bool.eq_false_iff.mpr hr
        rw [hr'] at h
        simp only [Bool.not_false, if_true] at h
        cases h
        refine ⟨hb, hr', 1, le_refl 1, by push_cast; ring, by push_cast; ring, ?_⟩
        intro j hj1 hjk
        omega
    · have hb' : is_within_bounds st (x + dx) (y + dy) = false :=
        Bool.eq_false_iff.mpr hb
      rw [hb'] at h
      simp at h

/-- Position of `(x, y)` along a unit direction; it increases by one per
step of the walk and is bounded by the layer inside the bounds. -/
def dirPos (dx dy x y : Int) : Int := x * dx + y * dy

lemma dirPos_step (dx dy x y : Int) (hd : UnitDir dx dy) :
    dirPos dx dy (x + dx) (y + dy) = dirPos dx dy x y + 1 := by
  rcases hd with ⟨rfl, rfl⟩ | ⟨rfl, rfl⟩ | ⟨rfl, rfl⟩ | ⟨rfl, rfl⟩ <;>
    simp [dirPos] <;> ring

lemma dirPos_bounds (st : GState) (dx dy x y : Int) (hd : UnitDir dx dy)
    (h : is_within_bounds st x y = true) :
    -(st.current_layer : Int) ≤ dirPos dx dy x y ∧
      dirPos dx dy x y ≤ (st.current_layer : Int) := by
  simp only [is_within_bounds, decide_eq_true_eq] at h
  rcases hd with ⟨rfl, rfl⟩ | ⟨rfl, rfl⟩ | ⟨rfl, rfl⟩ | ⟨rfl, rfl⟩ <;>
    simp only [dirPos] <;> constructor <;> nlinarith [h.1, h.2.1, h.2.2.1, h.2.2.2]

/-- Fuel-stability of the walk: once the fuel covers the number of steps
to the exit boundary, the result no longer depends on the fuel. -/
lemma jumpAux_stable (st : GState) (dx dy : Int) (hd : UnitDir dx dy) :
    ∀ (n : Nat) (x y : Int) (f : Nat),
      ((st.current_layer : Int) - dirPos dx dy x y).toNat + 1 ≤ n → n ≤ f →
      jumpAux st dx dy x y f = jumpAux st dx dy x y n := by
  intro n
  induction n with
  | zero => intro x y f h1 h2; omega
  | succ m ih =>
    intro x y f h1 h2
    obtain ⟨f', rfl⟩ : ∃ f', f = f' + 1 := ⟨f - 1, by omega⟩
    rw [jumpAux, jumpAux]
    by_cases hb : is_within_bounds st (x + dx) (y + dy) = true
    · rw [hb]
      simp only [Bool.not_true, Bool.false_eq_true, if_false]
      by_cases hr : is_read_only st (x + dx) (y + dy) = true
      · rw [hr]
        simp only [Bool.not_true, Bool.false_eq_true, if_false]
        apply ih
        · have hp := dirPos_bounds st dx dy (x + dx) (y + dy) hd hb
          have hs := dirPos_step dx dy x y hd
          omega
        · omega
      · have hr' : is_read_only st (x + dx) (y + dy) = false :=
          Bool.eq_false_iff.mpr hr
        rw [hr']
        simp
    · have hb' : is_within_bounds st (x + dx) (y + dy) = false :=
        Bool.eq_false_iff.mpr hb
      rw [hb']
      simp

lemma foldl_preserve {σ α : Type} (P : σ → Prop) (f : σ → α → σ) :
    ∀ (l : List α) (s : σ), (∀ s2 x, x ∈ l → P s2 → P (f s2 x)) → P s →
      P (l.foldl f s)
  | [], s, _, hs => hs
  | x :: t, s, hstep, hs => by
    rw [List.foldl_cons]
    exact foldl_preserve P f t (f s x)
      (fun s2 z hz => hstep s2 z (List.mem_cons_of_mem x hz))
      (hstep s x (List.mem_cons_self x t) hs)

lemma prefill_full_write_ro (coords : List (Int × Int)) (c : String) :
    ∀ g : Grid, (prefill_full_write g coords c).ro = g.ro := by
  induction coords with
  | nil => intro g; rfl
  | cons p t ih =>
    intro g
    rw [prefill_full_write, List.foldl_cons]
    by_cases hc : c = DEFAULT_CHAR
    · rw [if_pos hc]
      exact ih g
    · rw [if_neg hc]
      rw [show (List.foldl (fun acc p =>
          if c = DEFAULT_CHAR then acc else setCell acc p.1 p.2 c)
          (setCell g p.1 p.2 c) t) = prefill_full_write (setCell g p.1 p.2 c) t c
          from rfl]
      rw [ih]
      rfl

lemma prefill_full_write_keep (coords : List (Int × Int)) (c : String)
    (gy gx : Int) :
    ∀ g : Grid, g.cell gy gx = c →
      (prefill_full_write g coords c).cell gy gx = c := by
  induction coords with
  | nil => intro g hg; exact hg
  | cons p t ih =>
    intro g hg
    rw [prefill_full_write, List.foldl_cons]
    by_cases hc : c = DEFAULT_CHAR
    · rw [if_pos hc]
      exact ih g hg
    · rw [if_neg hc]
      apply ih
      simp only [setCell]
      split <;> [rfl; exact hg]

lemma prefill_full_write_mem (coords : List (Int × Int)) (c : String)
    (hc : c ≠ DEFAULT_CHAR) (p : Int × Int) :
    ∀ g : Grid, p ∈ coords →
      (prefill_full_write g coords c).cell p.2 p.1 = c := by
  induction coords with
  | nil => intro g hg; simp at hg
  | cons q t ih =>
    intro g hp
    rw [prefill_full_write, List.foldl_cons, if_neg hc]
    rcases List.mem_cons.mp hp with rfl | hp
    · apply prefill_full_write_keep
      simp [setCell]
    · exact ih _ hp

lemma prefill_one_frame_absent (fills : AxiomTag → List String)
    (lv : Nat) (b : AxiomTag) (layer : Nat) (a : AxiomTag) (s : Store)
    (hk : lv < layer ∨ b ≠ a) (h : s layer a = none) :
    prefill_one fills lv b s layer a = none := by
  have hens : ensure_layer_grid lv b s layer a = none := by
    rw [ensure_frame]
    · exact h
    · tauto
  rw [prefill_one]
  split
  · exact hens
  · cases hfa : (fills b).get? (lv - 1) with
    | none => exact hens
    | some c =>
      refine (storeSet_other _ _ _ _ _ _ ?_).trans hens
      rintro ⟨rfl, rfl⟩
      rcases hk with hk | hk
      · omega
      · exact hk rfl

lemma prefill_one_frame_present (fills : AxiomTag → List String)
    (lv : Nat) (b : AxiomTag) (layer : Nat) (a : AxiomTag) (s : Store)
    (G : Grid) (hk : ¬(lv = layer ∧ b = a)) (h : s layer a = some G) :
    prefill_one fills lv b s layer a = some G := by
  have hens : ensure_layer_grid lv b s layer a = some G := by
    rw [ensure_keep]
    · exact h
    · simp [h]
  rw [prefill_one]
  split
  · exact hens
  · cases hfa : (fills b).get? (lv - 1) with
    | none => exact hens
    | some c =>
      refine (storeSet_other _ _ _ _ _ _ ?_).trans hens
      rintro ⟨rfl, rfl⟩
      exact hk ⟨rfl, rfl⟩

lemma prefill_one_ro (fills : AxiomTag → List String)
    (lv : Nat) (b : AxiomTag) (layer : Nat) (a : AxiomTag) (s : Store)
    (G : Grid) (h : s layer a = some G) :
    ∃ G', prefill_one fills lv b s layer a = some G' ∧ G'.ro = G.ro := by
  have hens : ensure_layer_grid lv b s layer a = some G := by
    rw [ensure_keep]
    · exact h
    · simp [h]
  rw [prefill_one]
  split
  · exact ⟨G, hens, rfl⟩
  · cases hfa : (fills b).get? (lv - 1) with
    | none => exact ⟨G, hens, rfl⟩
    | some c =>
      by_cases hk : lv = layer ∧ b = a
      · obtain ⟨rfl, rfl⟩ := hk
        refine ⟨_, storeSet_self _ _ _ _, ?_⟩
        rw [prefill_full_write_ro]
        have hgg : getGrid (ensure_layer_grid lv b s) lv b = G := by
          rw [getGrid, hens]
          rfl
        rw [hgg]
      · refine ⟨G, (storeSet_other _ _ _ _ _ _ ?_).trans hens, rfl⟩
        rintro ⟨rfl, rfl⟩
        exact hk ⟨rfl, rfl⟩

lemma prefill_layers_ro (fills : AxiomTag → List String) (s : Store)
    (layer : Nat) (a : AxiomTag) (G : Grid) (h : s layer a = some G) :
    ∃ G', prefill_layers fills s layer a = some G' ∧ G'.ro = G.ro := by
  rw [prefill_layers]
  refine foldl_preserve
    (fun s2 : Store => ∃ G', s2 layer a = some G' ∧ G'.ro = G.ro)
    _ _ _ ?_ ⟨G, h, rfl⟩
  intro s2 lv _ h2
  refine foldl_preserve
    (fun s3 : Store => ∃ G', s3 layer a = some G' ∧ G'.ro = G.ro)
    _ _ _ ?_ h2
  intro s3 b _ h3
  obtain ⟨G2, hG2, hro2⟩ := h3
  obtain ⟨G3, hG3, hro3⟩ := prefill_one_ro fills lv b layer a s3 G2 hG2
  exact ⟨G3, hG3, hro3.trans hro2⟩

lemma prefill_one_ok (fills : AxiomTag → List String)
    (lv : Nat) (b : AxiomTag) (s : Store) (hs : StoreOK s) :
    StoreOK (prefill_one fills lv b s) := by
  have hens : StoreOK (ensure_layer_grid lv b s) := ensure_ok lv b s hs
  rw [prefill_one]
  split
  · exact hens
  · split
    · intro m c g hg
      by_cases hk : m = lv ∧ c = b
      · obtain ⟨rfl, rfl⟩ := hk
        rw [storeSet_self] at hg
        cases hg
        rw [prefill_full_write_ro]
        apply hens
        obtain ⟨g0, hg0⟩ := Option.isSome_iff_exists.mp (ensure_isSome m c s)
        rw [getGrid, hg0]
        rfl
      · rw [storeSet_other _ _ _ _ _ _ hk] at hg
        exact hens _ _ _ hg
    · exact hens

lemma prefill_layers_ok (fills : AxiomTag → List String) (s : Store)
    (hs : StoreOK s) : StoreOK (prefill_layers fills s) := by
  rw [prefill_layers]
  apply foldl_preserve StoreOK
  · intro s2 lv _ h2
    apply foldl_preserve StoreOK
    · intro s3 b _ h3
      exact prefill_one_ok fills lv b s3 h3
    · exact h2
  · exact hs

lemma emptyStore_ok : StoreOK emptyStore := by
  intro n a g hg
  simp [emptyStore] at hg

lemma inv_goto (st : GState) (layer : Nat) (a : AxiomTag)
    (hs : StoreOK st.data) : InvP (go_to_layer_grid st layer a) := by
  obtain ⟨g, hg⟩ := Option.isSome_iff_exists.mp (ensure_isSome layer a st.data)
  have hok : StoreOK (ensure_layer_grid layer a st.data) := ensure_ok _ _ _ hs
  refine ⟨?_, ?_, ?_, hok⟩
  · simp only [go_to_layer_grid]
    simp [hg]
  · simp only [go_to_layer_grid, is_within_bounds]
    simp
  · simp only [go_to_layer_grid, is_read_only, getGrid]
    rw [hg]
    simp only [Option.getD_some]
    rw [hok layer a g hg]
    simp only [roPattern]
    rw [decide_eq_false_iff_not]
    omega

lemma inv_move (st : GState) (dx dy : Int) (h : InvP st) :
    InvP (move_cursor st dx dy) := by
  obtain ⟨h1, h2, h3, h4⟩ := h
  rw [move_cursor]
  cases hj : jump_across st dx dy with
  | none => exact ⟨h1, h2, h3, h4⟩
  | some p =>
    obtain ⟨nx, ny⟩ := p
    obtain ⟨hb, hr, -⟩ := jumpAux_some st dx dy _ _ _ nx ny hj
    exact ⟨h1, hb, hr, h4⟩

lemma insert_char_frozen (st : GState) (ch : String)
    (h : is_read_only st st.cursor_x st.cursor_y = true) :
    insert_char st ch = st := by
  have h' : (getGrid st.data st.current_layer st.current_ax).ro
      (st.cursor_y + (st.current_layer : Int))
      (st.cursor_x + (st.current_layer : Int)) = true := h
  simp only [insert_char]
  rw [if_pos h']

lemma insert_char_unfrozen (st : GState) (ch : String)
    (h : is_read_only st st.cursor_x st.cursor_y = false) :
    insert_char st ch =
      { st with data := (storeSet st.data st.current_layer st.current_ax
          (setCell (getGrid st.data st.current_layer st.current_ax)
            (st.cursor_x + (st.current_layer : Int))
            (st.cursor_y + (st.current_layer : Int)) ch)) } := by
  have h' : ¬((getGrid st.data st.current_layer st.current_ax).ro
      (st.cursor_y + (st.current_layer : Int))
      (st.cursor_x + (st.current_layer : Int)) = true) := by
    intro hc
    rw [show ((getGrid st.data st.current_layer st.current_ax).ro
      (st.cursor_y + (st.current_layer : Int))
      (st.cursor_x + (st.current_layer : Int))) = is_read_only st st.cursor_x st.cursor_y
      from rfl, h] at hc
    exact Bool.false_ne_true hc
  simp only [insert_char]
  rw [if_neg h']
  rfl

lemma inv_write (st : GState) (ch : String) (h : InvP st) :
    InvP (insert_char st ch) := by
  obtain ⟨h1, h2, h3, h4⟩ := h
  by_cases hro : is_read_only st st.cursor_x st.cursor_y = true
  · rw [insert_char_frozen st ch hro]
    exact ⟨h1, h2, h3, h4⟩
  · replace hro : is_read_only st st.cursor_x st.cursor_y = false :=
      Bool.eq_false_iff.mpr hro
    rw [insert_char_unfrozen st ch hro]
    refine ⟨?_, h2, ?_, ?_⟩
    · show (storeSet st.data st.current_layer st.current_ax _
        st.current_layer st.current_ax).isSome = true
      rw [storeSet_self]
      rfl
    · show (getGrid (storeSet st.data st.current_layer st.current_ax _)
        st.current_layer st.current_ax).ro
        (st.cursor_y + (st.current_layer : Int))
        (st.cursor_x + (st.current_layer : Int)) = false
      rw [getGrid, storeSet_self]
      exact hro
    · intro m b g hg
      have hg2 : (storeSet st.data st.current_layer st.current_ax
          (setCell (getGrid st.data st.current_layer st.current_ax)
            (st.cursor_x + (st.current_layer : Int))
            (st.cursor_y + (st.current_layer : Int)) ch) m b
          = some g) := hg
      by_cases hk : m = st.current_layer ∧ b = st.current_ax
      · obtain ⟨rfl, rfl⟩ := hk
        rw [storeSet_self] at hg2
        cases hg2
        show (getGrid st.data st.current_layer st.current_ax).ro
          = roPattern st.current_layer
        obtain ⟨g0, hg0⟩ := Option.isSome_iff_exists.mp h1
        rw [getGrid, hg0]
        exact h4 _ _ g0 hg0
      · rw [storeSet_other _ _ _ _ _ _ hk] at hg2
        exact h4 _ _ _ hg2

lemma inv_prefill (st : GState) (fills : AxiomTag → List String)
    (h : InvP st) : InvP { st with data := prefill_layers fills st.data } := by
  obtain ⟨h1, h2, h3, h4⟩ := h
  obtain ⟨g, hg⟩ := Option.isSome_iff_exists.mp h1
  obtain ⟨g', hg', hro⟩ := prefill_layers_ro fills st.data _ _ g hg
  have hok : StoreOK (prefill_layers fills st.data) :=
    prefill_layers_ok fills st.data h4
  obtain ⟨X, hX⟩ : ∃ X : Store, X = prefill_layers fills st.data := ⟨_, rfl⟩
  rw [← hX] at hg' hok ⊢
  refine ⟨?_, h2, ?_, hok⟩
  · show (X st.current_layer st.current_ax).isSome = true
    rw [hg']
    rfl
  · show (getGrid X st.current_layer st.current_ax).ro
      (st.cursor_y + (st.current_layer : Int))
      (st.cursor_x + (st.current_layer : Int)) = false
    rw [getGrid, hg']
    show g'.ro (st.cursor_y + (st.current_layer : Int))
      (st.cursor_x + (st.current_layer : Int)) = false
    rw [hro]
    have h3' : ((st.data st.current_layer st.current_ax).getD grid0).ro
      (st.cursor_y + (st.current_layer : Int))
      (st.cursor_x + (st.current_layer : Int)) = false := h3
    rw [hg] at h3'
    exact h3'

set_option maxHeartbeats 1600000 in
/-- Every reachable state satisfies the state invariant. -/
lemma reachable_inv (st : GState) (h : Reachable st) : InvP st := by
  induction h with
  | init => exact inv_goto _ 0 AxiomTag.A emptyStore_ok
  | initPrefill fills =>
    have hgen : ∀ X : Store, StoreOK X →
        InvP (go_to_layer_grid ⟨X, 0, AxiomTag.A, 0, 0⟩ 0 AxiomTag.A) :=
      fun X hX => inv_goto _ 0 AxiomTag.A hX
    exact hgen _ (prefill_layers_ok fills emptyStore emptyStore_ok)
  | step_goto layer a _ ih => exact inv_goto _ layer a ih.2.2.2
  | step_move _ _ ih => exact inv_move _ _ _ ih
  | step_write ch _ ih => exact inv_write _ ch ih
  | step_prefill fills _ ih => exact inv_prefill _ fills ih

lemma ensure_present (n : Nat) (a : AxiomTag) (s : Store)
    (h : (s n a).isSome = true) : ensure_layer_grid n a s = s := by
  cases n with
  | zero => rw [ensure_layer_grid, if_pos h]
  | succ m => rw [ensure_layer_grid, if_pos h]

/-- C8: `ensureLayer` is idempotent: a second call with no intervening
mutation returns the very same store (no rebuild), and in particular the
identical cached grid. -/
theorem C8_ensure_idempotent (N : Nat) (a : AxiomTag) (s : Store) :
    ensure_layer_grid N a (ensure_layer_grid N a s) = ensure_layer_grid N a s ∧
    ensure_layer_grid N a (ensure_layer_grid N a s) N a =
      ensure_layer_grid N a s N a := by
  have h : ensure_layer_grid N a (ensure_layer_grid N a s) =
      ensure_layer_grid N a s :=
    ensure_present N a _ (ensure_isSome N a s)
  exact ⟨h, by rw [h]⟩

/-- C1: building `grid(N, A)`: for `N = 0` the single build step places
the origin marker at cell (0,0) and leaves it unfrozen; for `N > 0` the
build first ensures `grid(N-1, A)`, then the new grid holds, at every
offset of Chebyshev distance at most `N-1`, the corresponding cell of
`grid(N-1, A)` (the origin marker translated to a blank) with the frozen
flag set, and at every offset of Chebyshev distance exactly `N` the
default placeholder with the frozen flag clear. -/
theorem C1_layer_build (s : Store) (a : AxiomTag) (N : Nat)
    (habs : s N a = none) :
    (N = 0 → ∃ g : Grid, ensure_layer_grid N a s N a = some g ∧
      g.cell 0 0 = CENTER_CHAR ∧ g.ro 0 0 = false) ∧
    (0 < N → ∃ g prev : Grid,
      ensure_layer_grid N a s N a = some g ∧
      ensure_layer_grid N a s (N - 1) a = some prev ∧
      (∀ x y : Int, chebNat x y ≤ N - 1 →
        g.cell (y + (N : Int)) (x + (N : Int)) =
          (if prev.cell (y + (N : Int) - 1) (x + (N : Int) - 1) = CENTER_CHAR
           then " "
           else prev.cell (y + (N : Int) - 1) (x + (N : Int) - 1)) ∧
        g.ro (y + (N : Int)) (x + (N : Int)) = true) ∧
      (∀ x y : Int, chebNat x y = N →
        g.cell (y + (N : Int)) (x + (N : Int)) = DEFAULT_CHAR ∧
        g.ro (y + (N : Int)) (x + (N : Int)) = false)) := by
  constructor
  · rintro rfl
    rw [ensure_absent_zero a s habs]
    refine ⟨grid0, storeSet_self _ _ _ _, ?_, rfl⟩
    simp [grid0]
  · intro hN
    obtain ⟨m, rfl⟩ : ∃ m, N = m + 1 := ⟨N - 1, by omega⟩
    rw [ensure_absent_succ m a s habs]
    obtain ⟨prev, hprev⟩ := Option.isSome_iff_exists.mp (ensure_isSome m a s)
    have hgg : getGrid (ensure_layer_grid m a s) m a = prev := by
      rw [getGrid, hprev]
      rfl
    refine ⟨buildGrid (getGrid (ensure_layer_grid m a s) m a) (m + 1), prev,
      storeSet_self _ _ _ _, ?_, ?_, ?_⟩
    · show (storeSet (ensure_layer_grid m a s) (m + 1) a _) (m + 1 - 1) a
        = some prev
      rw [storeSet_other]
      · exact hprev
      · rintro ⟨h1, -⟩
        omega
    · intro x y hxy
      rw [hgg]
      exact ⟨(buildGrid_inner prev (m + 1) (by omega) x y hxy).1,
        (buildGrid_inner prev (m + 1) (by omega) x y hxy).2⟩
    · intro x y hxy
      rw [hgg]
      exact buildGrid_band prev (m + 1) x y hxy

/-- Witness for C1 at the concrete input `N = 1`, plane `A`, empty
store: grid 1 exists, its previous layer exists, its center cell holds
the blank translation of the origin marker and is frozen, and a ring
corner holds the default placeholder unfrozen. -/
theorem C1_layer_build_witness :
    emptyStore 1 AxiomTag.A = none ∧
    ∃ g prev : Grid,
      ensure_layer_grid 1 AxiomTag.A emptyStore 1 AxiomTag.A = some g ∧
      ensure_layer_grid 1 AxiomTag.A emptyStore 0 AxiomTag.A = some prev ∧
      g.cell 1 1 = " " ∧ g.ro 1 1 = true ∧
      g.cell 0 0 = DEFAULT_CHAR ∧ g.ro 0 0 = false := by
  refine ⟨rfl, ?_⟩
  obtain ⟨g, prev, h1, h2, h3, h4⟩ :=
    (C1_layer_build emptyStore AxiomTag.A 1 rfl).2 (by omega)
  have hp : prev = grid0 := by
    have he : ensure_layer_grid 1 AxiomTag.A emptyStore 0 AxiomTag.A
        = some grid0 := rfl
    have h2' : ensure_layer_grid 1 AxiomTag.A emptyStore 0 AxiomTag.A
        = some prev := h2
    rw [he] at h2'
    exact (Option.some.inj h2').symm
  have ha : g.cell 1 1 =
      (if prev.cell 0 0 = CENTER_CHAR then " " else prev.cell 0 0) :=
    (h3 0 0 (by decide)).1
  have hb : g.ro 1 1 = true := (h3 0 0 (by decide)).2
  have hc := (h4 (-1) (-1) (by decide)).1
  have hd := (h4 (-1) (-1) (by decide)).2
  norm_num at hc hd
  refine ⟨g, prev, h1, h2, ?_, hb, hc, hd⟩
  rw [ha, hp]
  simp [grid0]

/-- C7: in every reachable state the cursor addresses an in-bounds cell
whose frozen flag is false (the layer-0 origin, where the cursor may
also rest, is itself unfrozen, so no exception is even needed); in
particular the unconditional corner reset of `go_to_layer_axiom` lands
on an unfrozen cell, and `move_cursor` and `insert_char` preserve the
invariant. -/
theorem C7_cursor_invariant (st : GState) (h : Reachable st) :
    is_within_bounds st st.cursor_x st.cursor_y = true ∧
    is_read_only st st.cursor_x st.cursor_y = false ∧
    (∀ (layer : Nat) (a : AxiomTag),
      is_read_only (go_to_layer_grid st layer a)
        (go_to_layer_grid st layer a).cursor_x
        (go_to_layer_grid st layer a).cursor_y = false) ∧
    (∀ dx dy : Int, UnitDir dx dy →
      is_read_only (move_cursor st dx dy)
        (move_cursor st dx dy).cursor_x
        (move_cursor st dx dy).cursor_y = false) ∧
    (∀ ch : String,
      is_read_only (insert_char st ch)
        (insert_char st ch).cursor_x
        (insert_char st ch).cursor_y = false) := by
  obtain ⟨h1, h2, h3, h4⟩ := reachable_inv st h
  refine ⟨h2, h3, ?_, ?_, ?_⟩
  · intro layer a
    exact (reachable_inv _ (Reachable.step_goto layer a h)).2.2.1
  · intro dx dy hd
    exact (reachable_inv _ (Reachable.step_move h hd)).2.2.1
  · intro ch
    exact (reachable_inv _ (Reachable.step_write ch h)).2.2.1

/-- Witness for C7 at the concrete initial state. -/
theorem C7_cursor_invariant_witness :
    is_within_bounds initState initState.cursor_x initState.cursor_y = true ∧
    is_read_only initState initState.cursor_x initState.cursor_y = false :=
  ⟨(C7_cursor_invariant initState Reachable.init).1,
   (C7_cursor_invariant initState Reachable.init).2.1⟩

/-- C3: for a unit direction in a reachable state, a failed walk (the
walk leaves the bounds) changes nothing at all, and a successful walk
commits the cursor to a cell `k ≥ 1` steps along the direction that is
in bounds and unfrozen while every strictly intermediate cell along the
direction was in bounds and frozen (so the committed cell is the first
unfrozen in-bounds cell of the walk). -/
theorem C3_move_cursor_spec (st : GState) (_h : Reachable st) (dx dy : Int)
    (_hd : UnitDir dx dy) :
    (jump_across st dx dy = none → move_cursor st dx dy = st) ∧
    (∀ nx ny : Int, jump_across st dx dy = some (nx, ny) →
      move_cursor st dx dy = { st with cursor_x := nx, cursor_y := ny } ∧
      is_within_bounds st nx ny = true ∧
      is_read_only st nx ny = false ∧
      ∃ k : Nat, 1 ≤ k ∧ nx = st.cursor_x + (k : Int) * dx ∧
        ny = st.cursor_y + (k : Int) * dy ∧
        ∀ j : Nat, 1 ≤ j → j < k →
          is_within_bounds st (st.cursor_x + (j : Int) * dx)
            (st.cursor_y + (j : Int) * dy) = true ∧
          is_read_only st (st.cursor_x + (j : Int) * dx)
            (st.cursor_y + (j : Int) * dy) = true) := by
  constructor
  · intro hj
    rw [move_cursor, hj]
  · intro nx ny hj
    refine ⟨by rw [move_cursor, hj], ?_⟩
    exact jumpAux_some st dx dy _ _ _ nx ny hj

/-- Witness for C3 at the initial state and direction `(1, 0)`: the walk
leaves the layer-0 bounds immediately, so the move is a no-op. -/
theorem C3_move_cursor_spec_witness :
    jump_across initState 1 0 = none ∧ move_cursor initState 1 0 = initState :=
  ⟨rfl,
   (C3_move_cursor_spec initState Reachable.init 1 0 (Or.inl ⟨rfl, rfl⟩)).1 rfl⟩

/-- C4: `insert_char` writes at the cursor cell if and only if that
cell's frozen flag is false.  A write to a frozen cell returns the state
unchanged; a write to an unfrozen cell changes exactly that one cell of
the current grid to the written symbol (read-back returns it) and leaves
every other key, every other cell, the frozen flags, the context and the
cursor untouched. -/
theorem C4_insert_char_spec (st : GState) (ch : String) :
    (is_read_only st st.cursor_x st.cursor_y = true → insert_char st ch = st) ∧
    ((st.data st.current_layer st.current_ax).isSome = true →
      is_read_only st st.cursor_x st.cursor_y = false →
      ∃ g : Grid, st.data st.current_layer st.current_ax = some g ∧
        insert_char st ch = { st with data := (storeSet st.data st.current_layer
          st.current_ax (setCell g (st.cursor_x + (st.current_layer : Int))
            (st.cursor_y + (st.current_layer : Int)) ch)) } ∧
        (getGrid (insert_char st ch).data st.current_layer st.current_ax).cell
          (st.cursor_y + (st.current_layer : Int))
          (st.cursor_x + (st.current_layer : Int)) = ch ∧
        (∀ (m : Nat) (b : AxiomTag), ¬(m = st.current_layer ∧ b = st.current_ax) →
          (insert_char st ch).data m b = st.data m b) ∧
        (∀ gy gx : Int, ¬(gy = st.cursor_y + (st.current_layer : Int) ∧
            gx = st.cursor_x + (st.current_layer : Int)) →
          (getGrid (insert_char st ch).data st.current_layer st.current_ax).cell
            gy gx = g.cell gy gx) ∧
        (getGrid (insert_char st ch).data st.current_layer st.current_ax).ro
          = g.ro ∧
        (insert_char st ch).current_layer = st.current_layer ∧
        (insert_char st ch).current_ax = st.current_ax ∧
        (insert_char st ch).cursor_x = st.cursor_x ∧
        (insert_char st ch).cursor_y = st.cursor_y) := by
  constructor
  · exact insert_char_frozen st ch
  · intro hsome hro
    obtain ⟨g, hg⟩ := Option.isSome_iff_exists.mp hsome
    have hgg : getGrid st.data st.current_layer st.current_ax = g := by
      rw [getGrid, hg]
      rfl
    have heq := insert_char_unfrozen st ch hro
    rw [hgg] at heq
    refine ⟨g, hg, heq, ?_, ?_, ?_, ?_, ?_, ?_, ?_, ?_⟩
    · rw [heq]
      show (getGrid (storeSet st.data st.current_layer st.current_ax
        (setCell g (st.cursor_x + (st.current_layer : Int))
          (st.cursor_y + (st.current_layer : Int)) ch))
        st.current_layer st.current_ax).cell
        (st.cursor_y + (st.current_layer : Int))
        (st.cursor_x + (st.current_layer : Int)) = ch
      rw [getGrid, storeSet_self]
      simp [setCell]
    · intro m b hk
      rw [heq]
      show storeSet st.data st.current_layer st.current_ax
        (setCell g (st.cursor_x + (st.current_layer : Int))
          (st.cursor_y + (st.current_layer : Int)) ch) m b = st.data m b
      exact storeSet_other _ _ _ _ _ _ hk
    · intro gy gx hk
      rw [heq]
      show (getGrid (storeSet st.data st.current_layer st.current_ax
        (setCell g (st.cursor_x + (st.current_layer : Int))
          (st.cursor_y + (st.current_layer : Int)) ch))
        st.current_layer st.current_ax).cell gy gx = g.cell gy gx
      rw [getGrid, storeSet_self]
      show (setCell g (st.cursor_x + (st.current_layer : Int))
        (st.cursor_y + (st.current_layer : Int)) ch).cell gy gx = g.cell gy gx
      simp only [setCell]
      rw [if_neg hk]
    · rw [heq]
      show (getGrid (storeSet st.data st.current_layer st.current_ax
        (setCell g (st.cursor_x + (st.current_layer : Int))
          (st.cursor_y + (st.current_layer : Int)) ch))
        st.current_layer st.current_ax).ro = g.ro
      rw [getGrid, storeSet_self]
      rfl
    · rw [heq]
    · rw [heq]
    · rw [heq]
    · rw [heq]

/-- Witness for C4: writing on the frozen copied center of the layer-1
grid is silently ignored; writing at the unfrozen origin of the freshly
started state is read back. -/
theorem C4_insert_char_spec_witness :
    insert_char stFrozen "Z" = stFrozen ∧
    (getGrid (insert_char initState "Z").data 0 AxiomTag.A).cell 0 0 = "Z" := by
  constructor
  · exact (C4_insert_char_spec stFrozen "Z").1 (by decide)
  · obtain ⟨g, hg, heq, hread, -⟩ :=
      (C4_insert_char_spec initState "Z").2 rfl rfl
    exact hread

/-- C10: the frozen-skipping walk terminates: with the cursor of a
reachable state and a unit direction, every fuel of at least
`2·current_layer + 1` yields the same result as `jump_across` (whose
fuel is exactly `2·current_layer + 1`), i.e. the unbounded Python loop
stops within `2·current_layer + 1` iterations, either committing to an
unfrozen in-bounds cell or reporting failure. -/
theorem C10_jump_terminates (st : GState) (h : Reachable st) (dx dy : Int)
    (hd : UnitDir dx dy) :
    (∀ fuel : Nat, 2 * st.current_layer + 1 ≤ fuel →
      jumpAux st dx dy st.cursor_x st.cursor_y fuel = jump_across st dx dy) ∧
    (jump_across st dx dy = none ∨
      ∃ nx ny : Int, jump_across st dx dy = some (nx, ny) ∧
        is_within_bounds st nx ny = true ∧
        is_read_only st nx ny = false) := by
  obtain ⟨h1, h2, h3, h4⟩ := reachable_inv st h
  constructor
  · intro fuel hf
    have hb := dirPos_bounds st dx dy st.cursor_x st.cursor_y hd h2
    exact jumpAux_stable st dx dy hd (2 * st.current_layer + 1)
      st.cursor_x st.cursor_y fuel (by omega) hf
  · cases hj : jump_across st dx dy with
    | none => exact Or.inl rfl
    | some p =>
      obtain ⟨nx, ny⟩ := p
      obtain ⟨hb, hr, -⟩ := jumpAux_some st dx dy _ _ _ nx ny hj
      exact Or.inr ⟨nx, ny, rfl, hb, hr⟩

/-- Witness for C10 at the initial state, direction `(1, 0)`, fuel 5. -/
theorem C10_jump_terminates_witness :
    jumpAux initState 1 0 initState.cursor_x initState.cursor_y 5 =
      jump_across initState 1 0 ∧
    jump_across initState 1 0 = none :=
  ⟨(C10_jump_terminates initState Reachable.init 1 0
      (Or.inl ⟨rfl, rfl⟩)).1 5 (by decide), rfl⟩

/-- C2 (amended): the frozen half of the promotion invariant holds in
every reachable state — the centered `(2N-1)²` sub-square of every
cached `grid(N, A)` with `N > 0` is entirely frozen — and the symbol
half holds right after the build: immediately after `grid(N, A)` is
created, its centered sub-square equals `grid(N-1, A)` with the origin
marker replaced by blank.  (The symbol half is not an invariant of all
reachable states; see the counterexample.) -/
theorem C2_promotion_amended :
    (∀ st : GState, Reachable st → ∀ (N : Nat) (a : AxiomTag) (g : Grid),
      0 < N → st.data N a = some g →
      ∀ x y : Int, chebNat x y ≤ N - 1 →
        g.ro (y + (N : Int)) (x + (N : Int)) = true) ∧
    (∀ (s : Store) (a : AxiomTag) (N : Nat), 0 < N → s N a = none →
      ∃ g prev : Grid,
        ensure_layer_grid N a s N a = some g ∧
        ensure_layer_grid N a s (N - 1) a = some prev ∧
        ∀ x y : Int, chebNat x y ≤ N - 1 →
          g.cell (y + (N : Int)) (x + (N : Int)) =
            (if prev.cell (y + (N : Int) - 1) (x + (N : Int) - 1) = CENTER_CHAR
             then " "
             else prev.cell (y + (N : Int) - 1) (x + (N : Int) - 1))) := by
  constructor
  · intro st hst N a g hN hg x y hxy
    have hok := (reachable_inv st hst).2.2.2
    rw [hok N a g hg]
    simp only [roPattern, decide_eq_true_eq]
    rw [chebNat_le_iff] at hxy
    omega
  · intro s a N hN habs
    obtain ⟨m, rfl⟩ : ∃ m, N = m + 1 := ⟨N - 1, by omega⟩
    rw [ensure_absent_succ m a s habs]
    obtain ⟨prev, hprev⟩ := Option.isSome_iff_exists.mp (ensure_isSome m a s)
    have hgg : getGrid (ensure_layer_grid m a s) m a = prev := by
      rw [getGrid, hprev]
      rfl
    refine ⟨buildGrid (getGrid (ensure_layer_grid m a s) m a) (m + 1), prev,
      storeSet_self _ _ _ _, ?_, ?_⟩
    · show (storeSet (ensure_layer_grid m a s) (m + 1) a _) (m + 1 - 1) a
        = some prev
      rw [storeSet_other]
      · exact hprev
      · rintro ⟨h1, -⟩
        omega
    · intro x y hxy
      rw [hgg]
      exact (buildGrid_inner prev (m + 1) (by omega) x y hxy).1

/-- Witness for C2 (amended) at the state reached by switching to
layer 1 of plane A from the start: the copied center cell of grid 1 is
frozen. -/
theorem C2_promotion_amended_witness :
    ((go_to_layer_grid initState 1 AxiomTag.A).data 1 AxiomTag.A).isSome
      = true ∧
    (getGrid (go_to_layer_grid initState 1 AxiomTag.A).data 1 AxiomTag.A).ro
      1 1 = true := by
  have hre : Reachable (go_to_layer_grid initState 1 AxiomTag.A) :=
    Reachable.step_goto 1 AxiomTag.A Reachable.init
  have hsome : ((go_to_layer_grid initState 1 AxiomTag.A).data 1
      AxiomTag.A).isSome = true := rfl
  obtain ⟨g, hg⟩ := Option.isSome_iff_exists.mp hsome
  have hfr := C2_promotion_amended.1 _ hre 1 AxiomTag.A g (by omega) hg
    0 0 (by decide)
  refine ⟨hsome, ?_⟩
  rw [getGrid, hg]
  exact hfr

/-- Counterexample to C2 as stated: in the reachable state obtained by
building grid 1 of plane A, switching back to layer 0 and writing `"Z"`
at the (unfrozen) layer-0 origin, the center of grid 1 still holds the
blank copied at build time while grid 0 now holds `"Z"`, so the
sub-square of grid(1,A) no longer equals grid(0,A) with the origin
marker translated — the symbol half of the claimed invariant is not
preserved by `writeSymbol`. -/
theorem C2_promotion_counterexample :
    Reachable stBad ∧
    (stBad.data 1 AxiomTag.A).isSome = true ∧
    (stBad.data 0 AxiomTag.A).isSome = true ∧
    ¬((getGrid stBad.data 1 AxiomTag.A).cell 1 1 =
      (if (getGrid stBad.data 0 AxiomTag.A).cell 0 0 = CENTER_CHAR then " "
       else (getGrid stBad.data 0 AxiomTag.A).cell 0 0)) := by
  refine ⟨?_, rfl, rfl, ?_⟩
  · exact Reachable.step_write "Z"
      (Reachable.step_goto 0 AxiomTag.A
        (Reachable.step_goto 1 AxiomTag.A Reachable.init))
  · decide

/-- C6 (amended): for a ring-cell sequence of K cells, both strategies
emit no geometry for K = 0 and a single point with no closing duplicate
for K = 1; for K > 1 both append the first projected point at the end of
the point sequence (closing the polyline), but only the square (beta)
strategy also closes the symbol sequence: the square strategy emits
point and symbol sequences of equal length K + 1, while the circular
(current) strategy emits K + 1 points against only K symbols. -/
theorem C6_projection_amended {α : Type} [Inhabited α] (coord : Nat → α)
    (cells : List (Int × Int × String)) :
    (cells = [] →
      emit_ring render_ring_circular coord cells = none ∧
      emit_ring render_ring_square coord cells = none) ∧
    (cells.length = 1 →
      render_ring_circular coord cells
        = ([coord 0], cells.map (fun c => c.2.2)) ∧
      render_ring_square coord cells
        = ([coord 0], cells.map (fun c => c.2.2))) ∧
    (1 < cells.length →
      render_ring_circular coord cells =
        ((List.range cells.length).map coord ++ [coord 0],
          cells.map (fun c => c.2.2)) ∧
      render_ring_square coord cells =
        ((List.range cells.length).map coord ++ [coord 0],
          cells.map (fun c => c.2.2) ++
            [(cells.map (fun c => c.2.2)).headI]) ∧
      (render_ring_circular coord cells).1.length = cells.length + 1 ∧
      (render_ring_circular coord cells).2.length = cells.length ∧
      (render_ring_square coord cells).1.length = cells.length + 1 ∧
      (render_ring_square coord cells).2.length = cells.length + 1) := by
  refine ⟨?_, ?_, ?_⟩
  · rintro rfl
    exact ⟨rfl, rfl⟩
  · intro h1
    have hr1 : List.map coord (List.range 1) = [coord 0] := rfl
    constructor
    · simp [render_ring_circular, h1, hr1]
    · simp [render_ring_square, h1, hr1]
  · intro h2
    have hcond : 1 < ((List.range cells.length).map coord).length := by
      simpa using h2
    have hheadI : ((List.range cells.length).map coord).headI = coord 0 := by
      obtain ⟨k, hk⟩ : ∃ k, cells.length = k + 1 :=
        ⟨cells.length - 1, by omega⟩
      rw [hk, List.range_succ_eq_map]
      rfl
    have hc : render_ring_circular coord cells =
        ((List.range cells.length).map coord ++ [coord 0],
          cells.map (fun c => c.2.2)) := by
      simp only [render_ring_circular]
      rw [if_pos hcond, hheadI]
    have hs : render_ring_square coord cells =
        ((List.range cells.length).map coord ++ [coord 0],
          cells.map (fun c => c.2.2) ++
            [(cells.map (fun c => c.2.2)).headI]) := by
      simp only [render_ring_square]
      rw [if_pos hcond, hheadI]
    refine ⟨hc, hs, ?_, ?_, ?_, ?_⟩
    · rw [hc]
      simp
    · rw [hc]
      simp
    · rw [hs]
      simp
    · rw [hs]
      simp

/-- Witness for C6 (amended) at a concrete two-cell ring with the
identity point function: the circular strategy yields 3 points and 2
symbols, the square strategy 3 and 3. -/
theorem C6_projection_amended_witness :
    (render_ring_circular (fun i => i) [(1, 0, "B"), (0, 1, "B")]).1.length
      = 3 ∧
    (render_ring_circular (fun i => i) [(1, 0, "B"), (0, 1, "B")]).2.length
      = 2 ∧
    (render_ring_square (fun i => i) [(1, 0, "B"), (0, 1, "B")]).2.length
      = 3 := by
  obtain ⟨-, -, h⟩ := C6_projection_amended (fun i : Nat => i)
    [(1, 0, "B"), (0, 1, "B")]
  obtain ⟨-, -, hA, hB, -, hD⟩ := h (by decide)
  exact ⟨hA, hB, hD⟩

/-- Counterexample to C6 as stated: under the circular strategy (the
current `render_3d`), a two-cell ring yields a point sequence and a
symbol sequence of different lengths (3 points, 2 symbols) — the symbol
sequence does not receive the closing duplicate, so it is not parallel
to the closed point sequence. -/
theorem C6_projection_counterexample :
    ¬((render_ring_circular (fun i => i) [(1, 0, "B"), (0, 1, "B")]).1.length
      = (render_ring_circular (fun i => i)
          [(1, 0, "B"), (0, 1, "B")]).2.length) := by
  decide

lemma mem_ite_singleton {β : Type} (c : Prop) [Decidable c] (p f : β) :
    (p ∈ (if c then [f] else ([] : List β))) ↔ c ∧ p = f := by
  by_cases hc : c <;> simp [hc]

lemma mem_offsets (N : Nat) (x : Int) :
    x ∈ offsets N ↔ -(N : Int) ≤ x ∧ x ≤ (N : Int) := by
  rw [offsets, List.mem_map]
  constructor
  · rintro ⟨i, hi, heq⟩
    rw [List.mem_range] at hi
    omega
  · intro h
    refine ⟨(x + N).toNat, ?_, by omega⟩
    rw [List.mem_range]
    omega

lemma mem_ring_offsets (N : Nat) (x y : Int) :
    (x, y) ∈ ring_offsets N ↔ chebNat x y = N := by
  simp only [ring_offsets, List.mem_flatMap]
  constructor
  · rintro ⟨y', hy', hx⟩
    obtain ⟨x', hx', hmem⟩ := hx
    rw [mem_ite_singleton] at hmem
    obtain ⟨hc, heq⟩ := hmem
    rw [Prod.mk.injEq] at heq
    obtain ⟨rfl, rfl⟩ := heq
    exact hc
  · intro hc
    have hb := (chebNat_le_iff x y N).mp (le_of_eq hc)
    refine ⟨y, ?_, x, ?_, ?_⟩
    · rw [mem_offsets]
      omega
    · rw [mem_offsets]
      omega
    · rw [mem_ite_singleton]
      exact ⟨hc, rfl⟩

lemma length_flatMap_singleton {γ β : Type} (l : List γ) (c : γ → Prop)
    [DecidablePred c] (f : γ → β) :
    (l.flatMap (fun x => if c x then [f x] else [])).length
      = l.countP (fun x => decide (c x)) := by
  induction l with
  | nil => rfl
  | cons a t ih =>
    rw [List.flatMap_cons, List.length_append, ih, List.countP_cons]
    by_cases hc : c a <;> simp [hc, Nat.add_comm]

lemma countP_range_endpoints (N : Nat) (hN : 0 < N) (p : Nat → Bool)
    (hp : ∀ i, i < 2 * N + 1 → (p i = true ↔ (i = 0 ∨ i = 2 * N))) :
    (List.range (2 * N + 1)).countP p = 2 := by
  have aux : ∀ m, m + 1 ≤ 2 * N → (List.range (m + 1)).countP p = 1 := by
    intro m
    induction m with
    | zero =>
      intro h
      have h0 : p 0 = true := (hp 0 (by omega)).mpr (Or.inl rfl)
      rw [show List.range 1 = [0] from rfl]
      simp [List.countP_cons, h0]
    | succ k ih =>
      intro h
      rw [List.range_succ, List.countP_append, ih (by omega)]
      have hk : p (k + 1) = false := by
        rw [← Bool.not_eq_true]
        intro hc
        have := (hp (k + 1) (by omega)).mp hc
        omega
      simp [List.countP_cons, hk]
  obtain ⟨k, hk⟩ : ∃ k, 2 * N = k + 1 := ⟨2 * N - 1, by omega⟩
  rw [List.range_succ, List.countP_append]
  have hend : p (2 * N) = true := (hp (2 * N) (by omega)).mpr (Or.inr rfl)
  rw [hk, aux k (by omega)]
  rw [← hk]
  simp [List.countP_cons, hend]

lemma sum_range_corners (N : Nat) (hN : 0 < N) :
    ((List.range (2 * N + 1)).map
      (fun i => if i = 0 ∨ i = 2 * N then 2 * N + 1 else 2)).sum = 8 * N := by
  have aux : ∀ m, m + 1 ≤ 2 * N →
      ((List.range (m + 1)).map
        (fun i => if i = 0 ∨ i = 2 * N then 2 * N + 1 else 2)).sum
        = 2 * N + 1 + 2 * m := by
    intro m
    induction m with
    | zero =>
      intro h
      rw [show List.range 1 = [0] from rfl]
      simp
    | succ k ih =>
      intro h
      rw [List.range_succ, List.map_append, List.sum_append, ih (by omega)]
      have hk1 : ¬(k + 1 = 0 ∨ k + 1 = 2 * N) := by omega
      have h2 : (List.map
          (fun i => if i = 0 ∨ i = 2 * N then 2 * N + 1 else 2) [k + 1]).sum
          = 2 := by
        rw [List.map_cons, if_neg hk1, List.map_nil]
        rfl
      rw [h2]
      omega
  obtain ⟨k, hk⟩ : ∃ k, 2 * N = k + 1 := ⟨2 * N - 1, by omega⟩
  rw [List.range_succ, List.map_append, List.sum_append]
  rw [show List.range (2 * N) = List.range (k + 1) from by rw [hk]]
  rw [aux k (by omega)]
  have h3 : (List.map
      (fun i => if i = 0 ∨ i = 2 * N then 2 * N + 1 else 2) [2 * N]).sum
      = 2 * N + 1 := by
    rw [List.map_cons, if_pos (Or.inr rfl), List.map_nil]
    rfl
  rw [h3]
  omega

lemma ring_offsets_length (N : Nat) (hN : 0 < N) :
    (ring_offsets N).length = 8 * N := by
  rw [ring_offsets, List.length_flatMap]
  simp only [Function.comp_def]
  have hinner : ∀ y : Int, -(N : Int) ≤ y → y ≤ (N : Int) →
      ((offsets N).flatMap
        (fun x => if chebNat x y = N then [(x, y)] else [])).length
        = if y = -(N : Int) ∨ y = (N : Int) then 2 * N + 1 else 2 := by
    intro y hy1 hy2
    rw [length_flatMap_singleton, offsets, List.countP_map]
    by_cases hy : y = -(N : Int) ∨ y = (N : Int)
    · rw [if_pos hy]
      rw [List.countP_eq_length.mpr]
      · rw [List.length_range]
      · intro i hi
        rw [List.mem_range] at hi
        simp only [Function.comp_apply, decide_eq_true_eq, chebNat]
        omega
    · rw [if_neg hy]
      apply countP_range_endpoints N hN
      intro i hi
      simp only [Function.comp_apply, decide_eq_true_eq, chebNat]
      omega
  have hmap : (offsets N).map (fun y =>
      ((offsets N).flatMap
        (fun x => if chebNat x y = N then [(x, y)] else [])).length)
      = (offsets N).map
        (fun y => if y = -(N : Int) ∨ y = (N : Int) then 2 * N + 1 else 2) := by
    apply List.map_congr_left
    intro y hy
    rw [mem_offsets] at hy
    exact hinner y hy.1 hy.2
  rw [hmap, offsets, List.map_map]
  have hmap2 : (List.range (2 * N + 1)).map
      ((fun y => if y = -(N : Int) ∨ y = (N : Int) then 2 * N + 1 else 2) ∘
        (fun (i : Nat) => (i : Int) - (N : Int)))
      = (List.range (2 * N + 1)).map
        (fun i => if i = 0 ∨ i = 2 * N then 2 * N + 1 else 2) := by
    apply List.map_congr_left
    intro i hi
    rw [List.mem_range] at hi
    simp only [Function.comp_apply]
    by_cases hc : i = 0 ∨ i = 2 * N
    · rw [if_pos hc, if_pos (by omega)]
    · rw [if_neg (by omega), if_neg hc]
  rw [hmap2]
  exact sum_range_corners N hN

/-- C5: ring extraction.  For layer 0 the result is exactly the origin
cell with whatever symbol it currently holds (no filtering).  For a
positive layer, a triple is in the result precisely when it sits at
Chebyshev distance exactly `layer`, carries that cell's current symbol,
and the symbol is none of blank, empty, or the default placeholder; the
enumeration before the symbol filter has exactly `8·layer` cells; and
the frozen flags never affect the result (the extractor reads only the
symbol matrix). -/
theorem C5_ring_extraction (s : Store) (layer : Nat) (a : AxiomTag)
    (g : Grid) (hg : s layer a = some g) :
    (layer = 0 → get_outer_ring_cells s layer a = [(0, 0, g.cell 0 0)]) ∧
    (0 < layer →
      (∀ (x y : Int) (ch : String),
        ((x, y, ch) ∈ get_outer_ring_cells s layer a ↔
          chebNat x y = layer ∧
          ch = g.cell (y + (layer : Int)) (x + (layer : Int)) ∧
          ¬(ch = " " ∨ ch = "" ∨ ch = DEFAULT_CHAR))) ∧
      (ring_offsets layer).length = 8 * layer) ∧
    (∀ ro2 : Int → Int → Bool,
      get_outer_ring_cells (storeSet s layer a { g with ro := ro2 }) layer a
        = get_outer_ring_cells s layer a) := by
  have hgg : getGrid s layer a = g := by
    rw [getGrid, hg]
    rfl
  refine ⟨?_, ?_, ?_⟩
  · rintro rfl
    simp only [get_outer_ring_cells]
    rw [if_pos trivial, hgg]
  · intro hpos
    have h0 : ¬(layer = 0) := by omega
    constructor
    · intro x y ch
      simp only [get_outer_ring_cells]
      rw [if_neg h0, hgg, List.mem_filterMap]
      constructor
      · rintro ⟨p, hp, heq⟩
        obtain ⟨p1, p2⟩ := p
        dsimp only at heq
        by_cases hfil : g.cell (p2 + (layer : Int)) (p1 + (layer : Int)) = " " ∨
            g.cell (p2 + (layer : Int)) (p1 + (layer : Int)) = "" ∨
            g.cell (p2 + (layer : Int)) (p1 + (layer : Int)) = DEFAULT_CHAR
        · rw [if_pos hfil] at heq
          cases heq
        · rw [if_neg hfil, Option.some.injEq] at heq
          rw [Prod.mk.injEq] at heq
          obtain ⟨rfl, heq2⟩ := heq
          rw [Prod.mk.injEq] at heq2
          obtain ⟨rfl, rfl⟩ := heq2
          rw [mem_ring_offsets] at hp
          exact ⟨hp, rfl, hfil⟩
      · rintro ⟨hcheb, rfl, hfil⟩
        refine ⟨(x, y), ?_, ?_⟩
        · rw [mem_ring_offsets]
          exact hcheb
        · rw [if_neg hfil]
    · exact ring_offsets_length layer hpos
  · intro ro2
    have hgg2 : getGrid (storeSet s layer a { g with ro := ro2 }) layer a
        = { g with ro := ro2 } := by
      rw [getGrid, storeSet_self]
      rfl
    simp only [get_outer_ring_cells]
    rw [hgg2, hgg]

/-- Witness for C5 at concrete layers 0 and 1 of plane A: the layer-0
extraction returns the origin marker without filtering, and the layer-1
pre-filter enumeration has 8 cells. -/
theorem C5_ring_extraction_witness :
    get_outer_ring_cells (ensure_layer_grid 0 AxiomTag.A emptyStore) 0
      AxiomTag.A = [(0, 0, CENTER_CHAR)] ∧
    (ring_offsets 1).length = 8 * 1 := by
  constructor
  · have h := (C5_ring_extraction (ensure_layer_grid 0 AxiomTag.A emptyStore)
      0 AxiomTag.A grid0 rfl).1 rfl
    rw [h]
    rfl
  · exact ((C5_ring_extraction (ensure_layer_grid 1 AxiomTag.A emptyStore)
      1 AxiomTag.A
      (getGrid (ensure_layer_grid 1 AxiomTag.A emptyStore) 1 AxiomTag.A)
      rfl).2.1 (by omega)).2

lemma mem_prefill_ring_coords (g : Grid) (N : Nat) (p : Int × Int) :
    p ∈ prefill_ring_coords g N ↔
      ∃ x y : Int, chebNat x y = N ∧
        g.ro (y + (N : Int)) (x + (N : Int)) = false ∧
        p = (x + (N : Int), y + (N : Int)) := by
  rw [prefill_ring_coords, List.mem_filterMap]
  constructor
  · rintro ⟨q, hq, heq⟩
    obtain ⟨q1, q2⟩ := q
    dsimp only at heq
    by_cases hro : g.ro (q2 + (N : Int)) (q1 + (N : Int)) = true
    · rw [if_pos hro] at heq
      cases heq
    · have hro2 : g.ro (q2 + (N : Int)) (q1 + (N : Int)) = false :=
        Bool.eq_false_iff.mpr hro
      rw [if_neg hro] at heq
      cases heq
      rw [mem_ring_offsets] at hq
      exact ⟨q1, q2, hq, hro2, rfl⟩
  · rintro ⟨x, y, hc, hro, rfl⟩
    refine ⟨(x, y), ?_, ?_⟩
    · rw [mem_ring_offsets]
      exact hc
    · dsimp only
      rw [if_neg]
      rw [hro]
      exact Bool.false_ne_true

lemma prefill_one_self (fills : AxiomTag → List String) (m : Nat)
    (a : AxiomTag) (s : Store) (habs : s (m + 1) a = none) :
    ∃ G : Grid, prefill_one fills (m + 1) a s (m + 1) a = some G ∧
      RingPrefilled fills (m + 1) a G := by
  obtain ⟨gB, hgB⟩ := Option.isSome_iff_exists.mp (ensure_isSome (m + 1) a s)
  have hB : ensure_layer_grid (m + 1) a s (m + 1) a
      = some (buildGrid (getGrid (ensure_layer_grid m a s) m a) (m + 1)) := by
    rw [ensure_absent_succ m a s habs]
    exact storeSet_self _ _ _ _
  have hgBdef : gB
      = buildGrid (getGrid (ensure_layer_grid m a s) m a) (m + 1) := by
    rw [hB] at hgB
    exact (Option.some.inj hgB).symm
  have hgBro : gB.ro = roPattern (m + 1) := by
    rw [hgBdef]
    exact buildGrid_ro _ _
  have hgBband : ∀ x y : Int, chebNat x y = m + 1 →
      gB.cell (y + ((m + 1 : Nat) : Int)) (x + ((m + 1 : Nat) : Int))
        = DEFAULT_CHAR := by
    intro x y hc
    rw [hgBdef]
    exact (buildGrid_band _ (m + 1) x y hc).1
  have hgg : getGrid (ensure_layer_grid (m + 1) a s) (m + 1) a = gB := by
    rw [getGrid, hgB]
    rfl
  have hmem00 : ((0 : Int), (0 : Int)) ∈ prefill_ring_coords gB (m + 1) := by
    rw [mem_prefill_ring_coords]
    refine ⟨-((m + 1 : Nat) : Int), -((m + 1 : Nat) : Int), ?_, ?_, ?_⟩
    · simp only [chebNat]
      omega
    · rw [hgBro]
      simp only [roPattern]
      rw [decide_eq_false_iff_not]
      omega
    · rw [Prod.mk.injEq]
      constructor <;> omega
  have hcoords : ¬((prefill_ring_coords gB (m + 1)).length = 0) := by
    intro hz
    rw [List.length_eq_zero] at hz
    rw [hz] at hmem00
    simp at hmem00
  rw [prefill_one, hgg, if_neg hcoords]
  cases hfa : (fills a).get? (m + 1 - 1) with
  | none =>
    refine ⟨gB, hgB, ?_, ?_⟩
    · intro c hc
      rw [hfa] at hc
      cases hc
    · intro _ x y hc
      exact hgBband x y hc
  | some c =>
    refine ⟨prefill_full_write gB (prefill_ring_coords gB (m + 1)) c,
      storeSet_self _ _ _ _, ?_, ?_⟩
    · intro c2 hc2 hne x y hcheb hro
      rw [hfa] at hc2
      have hcc : c2 = c := (Option.some.inj hc2).symm
      subst hcc
      rw [prefill_full_write_ro] at hro
      have hpmem : ((x + ((m + 1 : Nat) : Int)), (y + ((m + 1 : Nat) : Int)))
          ∈ prefill_ring_coords gB (m + 1) := by
        rw [mem_prefill_ring_coords]
        exact ⟨x, y, hcheb, hro, rfl⟩
      have hw := prefill_full_write_mem (prefill_ring_coords gB (m + 1)) c2
        hne _ gB hpmem
      dsimp only at hw
      exact hw
    · intro hc2
      rw [hfa] at hc2
      cases hc2

lemma axFold_self (fills : AxiomTag → List String) (m : Nat) (a : AxiomTag) :
    ∀ (l : List AxiomTag) (s : Store), a ∈ l → l.Nodup →
      s (m + 1) a = none →
      ∃ G : Grid,
        (l.foldl (fun s2 b => prefill_one fills (m + 1) b s2) s) (m + 1) a
          = some G ∧
        RingPrefilled fills (m + 1) a G := by
  intro l
  induction l with
  | nil =>
    intro s hmem
    simp at hmem
  | cons b t ih =>
    intro s hmem hnd habs
    rw [List.foldl_cons]
    by_cases hab : b = a
    · subst hab
      obtain ⟨G, hG, hrp⟩ := prefill_one_self fills m b s habs
      have hnotin : b ∉ t := (List.nodup_cons.mp hnd).1
      refine ⟨G, ?_, hrp⟩
      refine foldl_preserve (fun s2 : Store => s2 (m + 1) b = some G)
        (fun s2 b2 => prefill_one fills (m + 1) b2 s2) t _ ?_ hG
      intro s2 b2 hb2 hP
      refine prefill_one_frame_present fills (m + 1) b2 (m + 1) b s2 G ?_ hP
      rintro ⟨-, rfl⟩
      exact hnotin hb2
    · have hmem2 : a ∈ t := by
        rcases List.mem_cons.mp hmem with h | h
        · exact absurd h.symm hab
        · exact h
      have habs2 : prefill_one fills (m + 1) b s (m + 1) a = none :=
        prefill_one_frame_absent fills (m + 1) b (m + 1) a s (Or.inr hab) habs
      exact ih _ hmem2 (List.nodup_cons.mp hnd).2 habs2

lemma layersFold_absent (fills : AxiomTag → List String) (layer : Nat)
    (a : AxiomTag) :
    ∀ (ls : List Nat) (s : Store), (∀ v ∈ ls, v < layer) →
      s layer a = none →
      (ls.foldl (fun s2 v =>
        axList.foldl (fun s3 b => prefill_one fills v b s3) s2) s) layer a
        = none := by
  intro ls s hls habs
  refine foldl_preserve (fun s2 : Store => s2 layer a = none)
    (fun s2 v => axList.foldl (fun s3 b => prefill_one fills v b s3) s2)
    ls s ?_ habs
  intro s2 v hv hP
  refine foldl_preserve (fun s3 : Store => s3 layer a = none)
    (fun s3 b => prefill_one fills v b s3) axList s2 ?_ hP
  intro s3 b _ hP2
  exact prefill_one_frame_absent fills v b layer a s3 (Or.inl (hls v hv)) hP2

lemma layersFold_present (fills : AxiomTag → List String) (layer : Nat)
    (a : AxiomTag) (G : Grid) :
    ∀ (ls : List Nat) (s : Store), (∀ v ∈ ls, v ≠ layer) →
      s layer a = some G →
      (ls.foldl (fun s2 v =>
        axList.foldl (fun s3 b => prefill_one fills v b s3) s2) s) layer a
        = some G := by
  intro ls s hls hpres
  refine foldl_preserve (fun s2 : Store => s2 layer a = some G)
    (fun s2 v => axList.foldl (fun s3 b => prefill_one fills v b s3) s2)
    ls s ?_ hpres
  intro s2 v hv hP
  refine foldl_preserve (fun s3 : Store => s3 layer a = some G)
    (fun s3 b => prefill_one fills v b s3) axList s2 ?_ hP
  intro s3 b _ hP2
  refine prefill_one_frame_present fills v b layer a s3 G ?_ hP2
  rintro ⟨rfl, -⟩
  exact hls v hv rfl

lemma mem_axList (a : AxiomTag) : a ∈ axList := by
  cases a <;> simp [axList]

lemma nodup_axList : axList.Nodup := by decide

/-- C9: full-mode prefill run from the empty store: for every layer in
`1..max_layers` and every plane, the resulting grid exists, and if a
symbol is configured for that depth (index `layer-1` of the plane's
list) and is not the default placeholder, then every unfrozen ring-band
cell of that grid holds it, while a layer with no configured symbol
keeps the default placeholder on its ring band. -/
lemma prefill_fold_reach (fills : AxiomTag → List String) (m k : Nat)
    (a : AxiomTag) :
    ∃ G : Grid,
      ((List.range' 1 (m + 1 + k)).foldl
        (fun s2 v => axList.foldl (fun s3 b => prefill_one fills v b s3) s2)
        emptyStore) (m + 1) a = some G ∧
      RingPrefilled fills (m + 1) a G := by
  have hsplit : List.range' 1 (m + 1 + k)
      = List.range' 1 m ++ ((m + 1) :: List.range' (m + 2) k) := by
    have happ : List.range' 1 m ++ List.range' (1 + m) (k + 1)
        = List.range' 1 ((k + 1) + m) := List.range'_append_1 1 m (k + 1)
    rw [show m + 1 + k = (k + 1) + m from by omega, ← happ]
    congr 1
    rw [show 1 + m = m + 1 from by omega, List.range'_succ]
  rw [hsplit, List.foldl_append, List.foldl_cons]
  have habs : ((List.range' 1 m).foldl
      (fun s2 v => axList.foldl (fun s3 b => prefill_one fills v b s3) s2)
      emptyStore) (m + 1) a = none := by
    refine layersFold_absent fills (m + 1) a _ _ ?_ rfl
    intro v hv
    rw [List.mem_range'_1] at hv
    omega
  obtain ⟨G, hG, hrp⟩ := axFold_self fills m a axList _
    (mem_axList a) nodup_axList habs
  refine ⟨G, ?_, hrp⟩
  refine layersFold_present fills (m + 1) a G _ _ ?_ hG
  intro v hv
  rw [List.mem_range'_1] at hv
  omega

/-- C9: full-mode prefill run from the empty store: for every layer in
`1..max_layers` and every plane, the resulting grid exists, and if a
symbol is configured for that depth (index `layer-1` of the plane's
list) and is not the default placeholder, then every unfrozen ring-band
cell of that grid holds it, while a layer with no configured symbol
keeps the default placeholder on its ring band. -/
theorem C9_prefill_full (fills : AxiomTag → List String) (layer : Nat)
    (a : AxiomTag) (h1 : 1 ≤ layer) (h2 : layer ≤ maxFills fills) :
    ∃ g : Grid, prefill_layers fills emptyStore layer a = some g ∧
      RingPrefilled fills layer a g := by
  obtain ⟨m, rfl⟩ : ∃ m, layer = m + 1 := ⟨layer - 1, by omega⟩
  obtain ⟨k, hk⟩ : ∃ k, maxFills fills = (m + 1) + k :=
    ⟨maxFills fills - (m + 1), by omega⟩
  obtain ⟨G, hG, hrp⟩ := prefill_fold_reach fills m k a
  rw [← hk] at hG
  exact ⟨G, hG, hrp⟩

/-- Witness for C9 with the symbol list `["X"]` for every plane at
layer 1 of plane A; additionally, a concrete ring cell of the prefilled
grid evaluates to `"X"`. -/
theorem C9_prefill_full_witness :
    (1 ≤ 1 ∧ 1 ≤ maxFills fillsX) ∧
    (∃ g : Grid, prefill_layers fillsX emptyStore 1 AxiomTag.A = some g ∧
      RingPrefilled fillsX 1 AxiomTag.A g) ∧
    (getGrid (prefill_layers fillsX emptyStore) 1 AxiomTag.A).cell 0 0
      = "X" := by
  refine ⟨⟨le_refl 1, by decide⟩,
    C9_prefill_full fillsX 1 AxiomTag.A (le_refl 1) (by decide), ?_⟩
  decide
